import Mathlib

/-!
Verification of the command pipeline engine of a small interactive shell
(rust sources: src/parser/parser.rs, src/commands/commands.rs,
src/output/output.rs, src/history/history.rs, src/main.rs).

The embedding works over `List Char` for strings and `List (List Char)`
for word lists, mirroring the Rust code character-for-character.
-/

set_option maxHeartbeats 1000000
set_option maxRecDepth 8192

namespace Shell

/-- The single-quote character, written via its code point. -/
def squote : Char := Char.ofNat 39

/-- The backtick character, written via its code point. -/
def bquote : Char := Char.ofNat 96

/-- `PromptQuote` from parser.rs: the tokenizer's three-state quoting mode. -/
inductive PromptQuote
  | Unquoted
  | SingleQuoted
  | DoubleQuoted
deriving DecidableEq

/-- The `push` closure of `parse_prompt` (parser.rs lines 18-23): flush the
buffer into the token list unless it is empty. -/
def pushTok (buffer : List Char) (tokens : List (List Char)) : List (List Char) :=
  if buffer.isEmpty then tokens else tokens ++ [buffer]

/-- The character loop of `parse_prompt` (parser.rs lines 26-66), with the
quote mode, pending buffer and emitted tokens as explicit state.  The Rust
iterator's `next`/`peek` calls become pattern matches on the remaining
character list; the end-of-input `push` (line 67) is the `[]` case. -/
def parsePromptAux : List Char → PromptQuote → List Char → List (List Char) → List (List Char)
  | [], _, buffer, tokens => pushTok buffer tokens
  | c :: cs, PromptQuote.Unquoted, buffer, tokens =>
    if c = ' ' ∨ c = '\t' ∨ c = '\n' then
      parsePromptAux cs PromptQuote.Unquoted [] (pushTok buffer tokens)
    else if c = '|' then
      parsePromptAux cs PromptQuote.Unquoted [] (pushTok buffer tokens ++ [['|']])
    else if c = squote then
      parsePromptAux cs PromptQuote.SingleQuoted buffer tokens
    else if c = '"' then
      parsePromptAux cs PromptQuote.DoubleQuoted buffer tokens
    else if c = '\\' then
      match cs with
      | [] => pushTok buffer tokens
      | d :: ds => parsePromptAux ds PromptQuote.Unquoted (buffer ++ [d]) tokens
    else
      parsePromptAux cs PromptQuote.Unquoted (buffer ++ [c]) tokens
  | c :: cs, PromptQuote.SingleQuoted, buffer, tokens =>
    if c = squote then
      parsePromptAux cs PromptQuote.Unquoted buffer tokens
    else
      parsePromptAux cs PromptQuote.SingleQuoted (buffer ++ [c]) tokens
  | c :: cs, PromptQuote.DoubleQuoted, buffer, tokens =>
    if c = '"' then
      parsePromptAux cs PromptQuote.Unquoted buffer tokens
    else if c = '\\' then
      match cs with
      | [] => pushTok (buffer ++ [c]) tokens
      | d :: ds =>
        if d = '\\' ∨ d = '"' ∨ d = '$' ∨ d = bquote ∨ d = '\n' then
          if d = '\n' then
            parsePromptAux ds PromptQuote.DoubleQuoted buffer tokens
          else
            parsePromptAux ds PromptQuote.DoubleQuoted (buffer ++ [d]) tokens
        else
          parsePromptAux (d :: ds) PromptQuote.DoubleQuoted (buffer ++ [c]) tokens
    else
      parsePromptAux cs PromptQuote.DoubleQuoted (buffer ++ [c]) tokens

/-- `parse_prompt` from parser.rs lines 13-70: the tokenizer. -/
def parse_prompt (prompt : List Char) : List (List Char) :=
  parsePromptAux prompt PromptQuote.Unquoted [] []

/-- Rust's `Vec::join(" ")` / the spec's "rejoin with single spaces". -/
def joinSpace : List (List Char) → List Char
  | [] => []
  | [t] => t
  | t :: ts => t ++ ' ' :: joinSpace ts

/-- An output sink, abstracting the `Box<dyn Output>` values built by
`extract_redirects` (output.rs): the standard stream it starts from, or a
`FileOutput` with its path and append flag.  File opening is modelled as
always succeeding; only the parsing logic is under verification here. -/
inductive Sink
  | Std
  | File (path : List Char) (append : Bool)
deriving DecidableEq

/-- The six redirect operators recognised by `extract_redirects`. -/
def redirOps : List (List Char) :=
  [">".toList, "1>".toList, ">>".toList, "1>>".toList, "2>".toList, "2>>".toList]

/-- The scanning loop of `extract_redirects` (parser.rs lines 77-110);
`none` models the `redirect path missing` error (MissingRedirectTarget). -/
def extractRedirectsAux :
    List (List Char) → List (List Char) → Sink → Sink →
      Option (List (List Char) × Sink × Sink)
  | [], filtered, stdout, stderr => some (filtered, stdout, stderr)
  | arg :: rest, filtered, stdout, stderr =>
    if arg = ">".toList ∨ arg = "1>".toList then
      match rest with
      | [] => none
      | path :: rest2 => extractRedirectsAux rest2 filtered (Sink.File path false) stderr
    else if arg = "2>".toList then
      match rest with
      | [] => none
      | path :: rest2 => extractRedirectsAux rest2 filtered stdout (Sink.File path false)
    else if arg = ">>".toList ∨ arg = "1>>".toList then
      match rest with
      | [] => none
      | path :: rest2 => extractRedirectsAux rest2 filtered (Sink.File path true) stderr
    else if arg = "2>>".toList then
      match rest with
      | [] => none
      | path :: rest2 => extractRedirectsAux rest2 filtered stdout (Sink.File path true)
    else
      extractRedirectsAux rest (filtered ++ [arg]) stdout stderr

/-- `extract_redirects` from parser.rs lines 72-113. -/
def extract_redirects (args : List (List Char)) :
    Option (List (List Char) × Sink × Sink) :=
  extractRedirectsAux args [] Sink.Std Sink.Std

/-- `CommandKind` from commands.rs lines 18-30 together with its
`History` variant.  Modelled from the spec: the `History` variant of
`CommandKind` is matched by `parse_command` (parser.rs line 169) but the
enum definition carrying it is missing from src/ — the copy of commands.rs
under src/ is a stale snapshot without it; the spec fixes the built-in set
as {exit, echo, type, pwd, cd, history}. -/
inductive CommandKind
  | Exit
  | Echo
  | Type
  | Pwd
  | Cd
  | History
deriving DecidableEq

/-- `str::parse::<CommandKind>()` — the strum `EnumString` instance: exact,
case-sensitive match of the serialized names. -/
def parseCommandKind (s : List Char) : Option CommandKind :=
  if s = "exit".toList then some CommandKind.Exit
  else if s = "echo".toList then some CommandKind.Echo
  else if s = "type".toList then some CommandKind.Type
  else if s = "pwd".toList then some CommandKind.Pwd
  else if s = "cd".toList then some CommandKind.Cd
  else if s = "history".toList then some CommandKind.History
  else none

/-- `is_built_in` from commands.rs lines 48-50. -/
def is_built_in (command : List Char) : Bool :=
  (parseCommandKind command).isSome

/-- `Command` from commands.rs lines 32-46 plus the `History` variant used
by parser.rs (same stale-snapshot situation as `CommandKind.History`). -/
inductive Command
  | Exit
  | Echo (text : List Char) (interpretEscapes : Bool)
  | Type (cmd : List Char)
  | Exec (command : List Char) (args : List (List Char))
  | Pwd
  | Cd (path : List Char)
  | History
deriving DecidableEq

/-- Parse errors of parser.rs (anyhow messages, made into a closed type):
`Empty command`, `redirect path missing`, `empty pipeline`. -/
inductive ParseErr
  | emptyCommand
  | missingRedirectTarget
  | emptyPipeline
deriving DecidableEq

/-- A stage's `OutputStreams` (output.rs lines 73-89): stdout and stderr
sinks. -/
abbrev Streams := Sink × Sink

/-- The default `OutputStreams` (terminal stdout and stderr). -/
def defaultStreams : Streams := (Sink.Std, Sink.Std)

/-- The `let command = match name.parse::<CommandKind>() { ... }` block of
`parse_command` (parser.rs lines 153-174), over the redirect-filtered
words. -/
def resolveCommand (name : List Char) (filtered : List (List Char)) : Command :=
  match parseCommandKind name with
  | some CommandKind.Exit => Command.Exit
  | some CommandKind.Echo =>
    if filtered.head? = some "-e".toList then
      Command.Echo (joinSpace filtered.tail) true
    else
      Command.Echo (joinSpace filtered) false
  | some CommandKind.Type => Command.Type (joinSpace filtered)
  | some CommandKind.Pwd => Command.Pwd
  | some CommandKind.Cd => Command.Cd (joinSpace filtered)
  | some CommandKind.History => Command.History
  | none => Command.Exec name filtered

/-- `parse_command` from parser.rs lines 147-177: split off the first word,
extract redirects from the rest, resolve the first word against
`CommandKind`, and build the `Command` with the filtered words. -/
def parse_command (args : List (List Char)) : Except ParseErr (Command × Streams) :=
  match args with
  | [] => Except.error ParseErr.emptyCommand
  | name :: rest =>
    match extract_redirects rest with
    | none => Except.error ParseErr.missingRedirectTarget
    | some (filtered, stdout, stderr) =>
      Except.ok (resolveCommand name filtered, (stdout, stderr))

/-- `tokens.split(|t| t == "|")` from parser.rs line 117: Rust slice
`split` — separators removed, empty segments kept. -/
def splitOnPipe : List (List Char) → List (List (List Char))
  | [] => [[]]
  | t :: rest =>
    if t = ['|'] then
      [] :: splitOnPipe rest
    else
      match splitOnPipe rest with
      | seg :: segs => (t :: seg) :: segs
      | [] => [[t]]

/-- The segment loop of `parse_pipeline` (parser.rs lines 126-137):
`final_streams` is assigned only on the last segment. -/
def parsePipelineGo :
    List (List (List Char)) → List Command → Option Streams →
      Except ParseErr (List Command × Streams)
  | [], commands, finalStreams =>
    Except.ok (commands, finalStreams.getD defaultStreams)
  | seg :: rest, commands, finalStreams =>
    match parse_command seg with
    | Except.error e => Except.error e
    | Except.ok (command, streams) =>
      parsePipelineGo rest (commands ++ [command])
        (if rest.isEmpty then some streams else finalStreams)

/-- `parse_pipeline` from parser.rs lines 115-145. -/
def parse_pipeline (tokens : List (List Char)) :
    Except ParseErr (List Command × Streams) :=
  let segments := (splitOnPipe tokens).filter (fun s => !s.isEmpty)
  if segments.isEmpty then Except.error ParseErr.emptyPipeline
  else parsePipelineGo segments [] none

/-- `interpret_escape_sequences` from commands.rs lines 235-263. -/
def interpret_escape_sequences : List Char → List Char
  | [] => []
  | c :: cs =>
    if c = '\\' then
      match cs with
      | [] => ['\\']
      | d :: ds =>
        if d = 'n' then '\n' :: interpret_escape_sequences ds
        else if d = 't' then '\t' :: interpret_escape_sequences ds
        else if d = 'r' then '\r' :: interpret_escape_sequences ds
        else if d = '\\' then '\\' :: interpret_escape_sequences ds
        else if d = 'a' then Char.ofNat 7 :: interpret_escape_sequences ds
        else if d = 'b' then Char.ofNat 8 :: interpret_escape_sequences ds
        else if d = 'f' then Char.ofNat 12 :: interpret_escape_sequences ds
        else if d = 'v' then Char.ofNat 11 :: interpret_escape_sequences ds
        else if d = 'e' then Char.ofNat 27 :: interpret_escape_sequences ds
        else '\\' :: d :: interpret_escape_sequences ds
    else
      c :: interpret_escape_sequences cs

/-- The rendering step of `execute_command`'s `Echo` arm (commands.rs lines
70-78): interpret escapes only when the flag is set. -/
def echoRendered (text : List Char) (interpretEscapes : Bool) : List Char :=
  if interpretEscapes then interpret_escape_sequences text else text

/-- The ambient environment of the execution layer: search-path lookup
(`find_in_path`), an abstract behaviour for spawned programs (stdout lines
as a function of program, argv and stdin lines), home directory and
directory-existence oracle for `cd`, the current working directory for
`pwd`, and the stored history lines. -/
structure ShellEnv where
  findInPath : List Char → Option (List Char)
  progOutput : List Char → List (List Char) → List (List Char) → List (List Char)
  homeDir : Option (List Char)
  dirOk : List Char → Bool
  cwd : List Char
  historyItems : List (List Char)

/-- `PathBuf::join` on Unix: joining an absolute path (leading `/`)
replaces the base entirely; otherwise the joined path is appended after a
`/` separator. -/
def pathJoin (base p : List Char) : List Char :=
  if p.head? = some '/' then p else base ++ '/' :: p

/-- The target computation of `cd` (commands.rs lines 126-130): empty or
`~` goes to the home directory, `~/rest` joins `rest` onto the home
directory with `PathBuf::join` (so an absolute `rest`, as in `~//x`,
replaces the home directory), anything else is taken verbatim. -/
def cdTarget (env : ShellEnv) (path : List Char) : Option (List Char) :=
  if path = [] ∨ path = ['~'] then env.homeDir
  else if path.take 2 = ['~', '/'] then
    env.homeDir.map (fun home => pathJoin home (path.drop 2))
  else some path

/-- `cd` from commands.rs lines 125-138: resolve the target and attempt the
directory change; `env.dirOk` models `env::set_current_dir` succeeding.
On success the new working directory is returned. -/
def cd (env : ShellEnv) (path : List Char) : Except (List Char) (List Char) :=
  match cdTarget env path with
  | some t =>
    if env.dirOk t then Except.ok t
    else Except.error ("cd: ".toList ++ path ++ ": No such file or directory".toList)
  | none => Except.error ("cd: ".toList ++ path ++ ": No such file or directory".toList)

/-- The effect of one `cd` on the working-directory state: the OS keeps the
working directory unchanged when `set_current_dir` fails, and the shell only
reports the error (lib.rs `handle_command`; spec §7 StateMutationError). -/
def cdStep (env : ShellEnv) (cwd path : List Char) : List Char × Option (List Char) :=
  match cd env path with
  | Except.ok t => (t, none)
  | Except.error e => (cwd, some e)

/-- Observable effects of executing a pipeline: child spawns, lines written
to the resolved stdout sink, lines written to the stderr sink. -/
inductive Event
  | spawn (prog : List Char)
  | outLine (line : List Char)
  | errLine (line : List Char)
deriving DecidableEq

/-- One stage's outcome in `execute_command` (commands.rs lines 58-123):
`exited` models `process::exit(0)`; `next` carries the optional conduit
(`Ok(Option<PipeReader>)`) whose content is the list of lines the next
stage will read. -/
inductive StageResult
  | exited
  | next (conduit : Option (List (List Char)))
deriving DecidableEq

/-- `exec_piped` from commands.rs lines 140-212, at the level of observable
effects: the search-path check fails with `<name>: command not found`
before anything is spawned; otherwise the child is spawned, and its stdout
either drains to the resolved stdout sink (final stage) or becomes the
conduit handed to the next stage. -/
def exec_piped (env : ShellEnv) (command : List Char) (args : List (List Char))
    (input : List (List Char)) (isFinal : Bool) :
    Except (List Char) StageResult × List Event :=
  match env.findInPath command with
  | none => (Except.error (command ++ ": command not found".toList), [])
  | some _ =>
    let out := env.progOutput command args input
    if isFinal then
      (Except.ok (StageResult.next none), Event.spawn command :: out.map Event.outLine)
    else
      (Except.ok (StageResult.next (some out)), [Event.spawn command])

/-- The body of `type` (commands.rs lines 96-103). -/
def typeText (env : ShellEnv) (cmd : List Char) : List Char :=
  if is_built_in cmd then cmd ++ " is a shell builtin".toList
  else
    match env.findInPath cmd with
    | some path => cmd ++ " is ".toList ++ path
    | none => cmd ++ ": not found".toList

/-- A built-in's single-line output at stage position: written to the
stdout sink when final (`out.print`), otherwise sent through a fresh
conduit (`pipe_string`), as in commands.rs lines 79-109. -/
def builtinOut (lines : List (List Char)) (isFinal : Bool) :
    Except (List Char) StageResult × List Event :=
  if isFinal then
    (Except.ok (StageResult.next none), lines.map Event.outLine)
  else
    (Except.ok (StageResult.next (some lines)), [])

/-- `execute_command` from commands.rs lines 58-123 over the effect model;
`isFinal` stands for `stdout_output.is_some()`.  The `History` arm is
modelled from the spec: commands.rs under src/ is a stale snapshot without
it; spec §6 has `history` delegate to the History collaborator, which
stores the raw lines (history.rs), printed one per line. -/
def execute_command (env : ShellEnv) (c : Command) (input : List (List Char))
    (isFinal : Bool) : Except (List Char) StageResult × List Event :=
  match c with
  | Command.Exit => (Except.ok StageResult.exited, [])
  | Command.Cd path =>
    match cd env path with
    | Except.ok _ => (Except.ok (StageResult.next none), [])
    | Except.error e => (Except.error e, [])
  | Command.Echo text esc => builtinOut [echoRendered text esc] isFinal
  | Command.Pwd => builtinOut [env.cwd] isFinal
  | Command.Type cmd => builtinOut [typeText env cmd] isFinal
  | Command.History => builtinOut env.historyItems isFinal
  | Command.Exec command args => exec_piped env command args input isFinal

/-- Modelled from the spec: `handle_pipeline` is called from main.rs but
its definition is missing from src/.  Per spec §4.5 and §7 it runs the
stages in order, feeding each stage's conduit to the next, reports a
stage's error to the stderr sink and halts there (later stages never
start), and `exit` terminates everything at once. -/
def handle_pipeline (env : ShellEnv) :
    List Command → List (List Char) → List Event
  | [], _ => []
  | c :: rest, input =>
    match execute_command env c input rest.isEmpty with
    | (Except.error e, evs) => evs ++ [Event.errLine e]
    | (Except.ok StageResult.exited, evs) => evs
    | (Except.ok (StageResult.next out), evs) =>
      evs ++ handle_pipeline env rest (out.getD [])



/-- A character the Unquoted mode copies into the buffer as-is: not
whitespace, not a pipe, and none of the three quoting/escape
metacharacters. -/
def plainChar (c : Char) : Prop :=
  c ≠ ' ' ∧ c ≠ '\t' ∧ c ≠ '\n' ∧ c ≠ '|' ∧ c ≠ squote ∧ c ≠ '"' ∧ c ≠ '\\'

/-- A token the tokenizer can emit on already-unquoted input: the pipe
boundary token, or a non-empty word of plain characters. -/
def goodTok (t : List Char) : Prop :=
  t ≠ [] ∧ (t = ['|'] ∨ ∀ c ∈ t, plainChar c)

/-- Sequential parse of every segment in order; the explicit list of
per-segment results used to characterize `parse_pipeline`'s loop. -/
def mapParse : List (List (List Char)) → Except ParseErr (List (Command × Streams))
  | [] => Except.ok []
  | seg :: rest =>
    match parse_command seg, mapParse rest with
    | Except.ok r, Except.ok rs => Except.ok (r :: rs)
    | Except.error e, _ => Except.error e
    | Except.ok _, Except.error e => Except.error e

/-- The stdout-redirect operators, with `>>`/`1>>` appending. -/
def stdoutOps : List (List Char) :=
  [">".toList, "1>".toList, ">>".toList, "1>>".toList]

/-- The stderr-redirect operators, with `2>>` appending. -/
def stderrOps : List (List Char) :=
  ["2>".toList, "2>>".toList]

/-- Whether an operator opens its file in append mode. -/
def opAppendFlag (op : List Char) : Bool :=
  op = ">>".toList ∨ op = "1>>".toList ∨ op = "2>>".toList

/-- The serialized names of the built-in set, in declaration order of
`CommandKind`. -/
def builtinNames : List (List Char) :=
  ["exit".toList, "echo".toList, "type".toList, "pwd".toList, "cd".toList,
    "history".toList]

/-- `pushTok` only ever appends a non-empty buffer. -/
theorem pushTok_ne_nil {buffer : List Char} {tokens : List (List Char)}
    (h : ∀ t ∈ tokens, t ≠ []) : ∀ t ∈ pushTok buffer tokens, t ≠ [] := by
  intro t ht
  unfold pushTok at ht
  by_cases hb : buffer.isEmpty
  · rw [if_pos hb] at ht
    exact h t ht
  · rw [if_neg hb] at ht
    rcases List.mem_append.1 ht with h1 | h1
    · exact h t h1
    · rcases List.mem_singleton.1 h1 with rfl
      exact fun hbad => hb (List.isEmpty_iff.2 hbad)

/-- Step: whitespace in Unquoted mode flushes the buffer. -/
theorem aux_ws {c : Char} (cs buffer : List Char) (tokens : List (List Char))
    (h : c = ' ' ∨ c = '\t' ∨ c = '\n') :
    parsePromptAux (c :: cs) PromptQuote.Unquoted buffer tokens =
      parsePromptAux cs PromptQuote.Unquoted [] (pushTok buffer tokens) := by
  rw [parsePromptAux.eq_def]
  rcases h with rfl | rfl | rfl <;> simp

/-- Step: `|` in Unquoted mode flushes the buffer and emits the boundary
token. -/
theorem aux_pipe (cs buffer : List Char) (tokens : List (List Char)) :
    parsePromptAux ('|' :: cs) PromptQuote.Unquoted buffer tokens =
      parsePromptAux cs PromptQuote.Unquoted [] (pushTok buffer tokens ++ [['|']]) := by
  rw [parsePromptAux.eq_def]
  simp [squote]

/-- Step: a single quote in Unquoted mode enters SingleQuoted mode. -/
theorem aux_enter_single (cs buffer : List Char) (tokens : List (List Char)) :
    parsePromptAux (squote :: cs) PromptQuote.Unquoted buffer tokens =
      parsePromptAux cs PromptQuote.SingleQuoted buffer tokens := by
  rw [parsePromptAux.eq_def]
  simp [squote]

/-- Step: a double quote in Unquoted mode enters DoubleQuoted mode. -/
theorem aux_enter_double (cs buffer : List Char) (tokens : List (List Char)) :
    parsePromptAux ('"' :: cs) PromptQuote.Unquoted buffer tokens =
      parsePromptAux cs PromptQuote.DoubleQuoted buffer tokens := by
  rw [parsePromptAux.eq_def]
  simp [squote]

/-- Step: a backslash in Unquoted mode copies the next character
verbatim. -/
theorem aux_bslash {d : Char} (ds buffer : List Char) (tokens : List (List Char)) :
    parsePromptAux ('\\' :: d :: ds) PromptQuote.Unquoted buffer tokens =
      parsePromptAux ds PromptQuote.Unquoted (buffer ++ [d]) tokens := by
  rw [parsePromptAux.eq_def]
  simp [squote]

/-- Step: a trailing backslash in Unquoted mode is dropped and the line
ends. -/
theorem aux_bslash_nil (buffer : List Char) (tokens : List (List Char)) :
    parsePromptAux ['\\'] PromptQuote.Unquoted buffer tokens =
      pushTok buffer tokens := by
  rw [parsePromptAux.eq_def]
  simp [squote]

/-- Step: an ordinary character in Unquoted mode is appended to the
buffer. -/
theorem aux_plain {c : Char} (cs buffer : List Char) (tokens : List (List Char))
    (h1 : ¬(c = ' ' ∨ c = '\t' ∨ c = '\n')) (h2 : c ≠ '|') (h3 : c ≠ squote)
    (h4 : c ≠ '"') (h5 : c ≠ '\\') :
    parsePromptAux (c :: cs) PromptQuote.Unquoted buffer tokens =
      parsePromptAux cs PromptQuote.Unquoted (buffer ++ [c]) tokens := by
  rw [parsePromptAux.eq_def]
  simp [h1, h2, h3, h4, h5]

/-- Step: a single quote exits SingleQuoted mode. -/
theorem aux_exit_single (cs buffer : List Char) (tokens : List (List Char)) :
    parsePromptAux (squote :: cs) PromptQuote.SingleQuoted buffer tokens =
      parsePromptAux cs PromptQuote.Unquoted buffer tokens := by
  rw [parsePromptAux.eq_def]
  simp

/-- Step: any other character in SingleQuoted mode is copied literally. -/
theorem aux_single_char {c : Char} (cs buffer : List Char)
    (tokens : List (List Char)) (h : c ≠ squote) :
    parsePromptAux (c :: cs) PromptQuote.SingleQuoted buffer tokens =
      parsePromptAux cs PromptQuote.SingleQuoted (buffer ++ [c]) tokens := by
  rw [parsePromptAux.eq_def]
  simp [h]

/-- Step: a double quote exits DoubleQuoted mode. -/
theorem aux_exit_double (cs buffer : List Char) (tokens : List (List Char)) :
    parsePromptAux ('"' :: cs) PromptQuote.DoubleQuoted buffer tokens =
      parsePromptAux cs PromptQuote.Unquoted buffer tokens := by
  rw [parsePromptAux.eq_def]
  simp

/-- Step: any other non-escape character in DoubleQuoted mode is copied
literally. -/
theorem aux_double_char {c : Char} (cs buffer : List Char)
    (tokens : List (List Char)) (h1 : c ≠ '"') (h2 : c ≠ '\\') :
    parsePromptAux (c :: cs) PromptQuote.DoubleQuoted buffer tokens =
      parsePromptAux cs PromptQuote.DoubleQuoted (buffer ++ [c]) tokens := by
  rw [parsePromptAux.eq_def]
  simp [h1, h2]

/-- Every token the tokenizer loop emits is non-empty, from any state
whose already-emitted tokens are non-empty, in every quoting mode. -/
theorem parsePromptAux_ne_nil :
    ∀ (s : List Char) (q : PromptQuote) (buffer : List Char)
      (tokens : List (List Char)),
      (∀ t ∈ tokens, t ≠ []) →
      ∀ t ∈ parsePromptAux s q buffer tokens, t ≠ [] := by
  have hpipe : ∀ (buffer : List Char) (tokens : List (List Char)),
      (∀ t ∈ tokens, t ≠ []) →
      ∀ t ∈ pushTok buffer tokens ++ [['|']], t ≠ [] := by
    intro buffer tokens h t ht
    rcases List.mem_append.1 ht with h1 | h1
    · exact pushTok_ne_nil h t h1
    · rcases List.mem_singleton.1 h1 with rfl
      simp
  intro s q buffer tokens
  induction s, q, buffer, tokens using parsePromptAux.induct with
  | case1 q buffer tokens =>
    intro h
    exact pushTok_ne_nil h
  | case2 c cs buffer tokens hc ih =>
    intro h
    rw [aux_ws cs buffer tokens hc]
    exact ih (pushTok_ne_nil h)
  | case3 cs buffer tokens _ ih =>
    intro h
    rw [aux_pipe cs buffer tokens]
    exact ih (hpipe buffer tokens h)
  | case4 cs buffer tokens _ _ ih =>
    intro h
    rw [aux_enter_single cs buffer tokens]
    exact ih h
  | case5 cs buffer tokens _ _ _ ih =>
    intro h
    rw [aux_enter_double cs buffer tokens]
    exact ih h
  | case6 buffer tokens _ _ _ _ =>
    intro h
    rw [aux_bslash_nil buffer tokens]
    exact pushTok_ne_nil h
  | case7 buffer tokens d ds _ _ _ _ ih =>
    intro h
    rw [aux_bslash ds buffer tokens]
    exact ih h
  | case8 c cs buffer tokens h1 h2 h3 h4 h5 ih =>
    intro h
    rw [aux_plain cs buffer tokens h1 h2 h3 h4 h5]
    exact ih h
  | case9 cs buffer tokens ih =>
    intro h
    rw [aux_exit_single cs buffer tokens]
    exact ih h
  | case10 c cs buffer tokens hc ih =>
    intro h
    rw [aux_single_char cs buffer tokens hc]
    exact ih h
  | case11 cs buffer tokens ih =>
    intro h
    rw [aux_exit_double cs buffer tokens]
    exact ih h
  | case12 buffer tokens _ =>
    intro h
    rw [parsePromptAux.eq_def]
    simp only []
    exact pushTok_ne_nil h
  | case13 buffer tokens ds _ _ ih =>
    intro h
    rw [show parsePromptAux ('\\' :: '\n' :: ds) PromptQuote.DoubleQuoted buffer tokens =
      parsePromptAux ds PromptQuote.DoubleQuoted buffer tokens from by
        rw [parsePromptAux.eq_def]; simp [bquote]]
    exact ih h
  | case14 buffer tokens d ds hd hnl _ ih =>
    intro h
    rw [show parsePromptAux ('\\' :: d :: ds) PromptQuote.DoubleQuoted buffer tokens =
      parsePromptAux ds PromptQuote.DoubleQuoted (buffer ++ [d]) tokens from by
        rw [parsePromptAux.eq_def]
        simp only []
        rw [if_neg (by decide), if_pos hd, if_neg hnl]
        simp]
    exact ih h
  | case15 buffer tokens d ds hd _ ih =>
    intro h
    rw [show parsePromptAux ('\\' :: d :: ds) PromptQuote.DoubleQuoted buffer tokens =
      parsePromptAux (d :: ds) PromptQuote.DoubleQuoted (buffer ++ ['\\']) tokens from by
        rw [parsePromptAux.eq_def]
        simp only []
        rw [if_neg (by decide), if_neg hd]
        simp]
    exact ih h
  | case16 c cs buffer tokens h1 h2 ih =>
    intro h
    rw [aux_double_char cs buffer tokens h1 h2]
    exact ih h


/-- A run of plain characters is appended to the buffer wholesale. -/
theorem aux_plain_run :
    ∀ (w : List Char), (∀ c ∈ w, plainChar c) →
      ∀ (cs buffer : List Char) (tokens : List (List Char)),
        parsePromptAux (w ++ cs) PromptQuote.Unquoted buffer tokens =
          parsePromptAux cs PromptQuote.Unquoted (buffer ++ w) tokens := by
  intro w
  induction w with
  | nil => intro _ cs buffer tokens; simp
  | cons c w' ih =>
    intro h cs buffer tokens
    obtain ⟨h1, h2, h3, h4, h5, h6, h7⟩ := h c (List.mem_cons_self c w')
    rw [List.cons_append,
      aux_plain (w' ++ cs) buffer tokens
        (by rintro (hc | hc | hc) <;> [exact h1 hc; exact h2 hc; exact h3 hc])
        h4 h5 h6 h7,
      ih (fun d hd => h d (List.mem_cons_of_mem c hd)) cs (buffer ++ [c]) tokens,
      List.append_assoc]
    rfl

/-- `pushTok` preserves goodness of the emitted tokens when the buffer is
plain. -/
theorem pushTok_good (buffer : List Char) (tokens : List (List Char))
    (hb : ∀ c ∈ buffer, plainChar c) (ht : ∀ t ∈ tokens, goodTok t) :
    ∀ t ∈ pushTok buffer tokens, goodTok t := by
  intro t hmem
  unfold pushTok at hmem
  by_cases he : buffer.isEmpty
  · rw [if_pos he] at hmem
    exact ht t hmem
  · rw [if_neg he] at hmem
    rcases List.mem_append.1 hmem with h1 | h1
    · exact ht t h1
    · rcases List.mem_singleton.1 h1 with rfl
      exact ⟨fun hb' => he (List.isEmpty_iff.2 hb'), Or.inr hb⟩

/-- On already-unquoted input (no quote characters, no backslash) every
token the tokenizer emits is good: the boundary token or a non-empty plain
word. -/
theorem aux_goodTok :
    ∀ (s : List Char), (∀ c ∈ s, c ≠ squote ∧ c ≠ '"' ∧ c ≠ '\\') →
      ∀ (buffer : List Char), (∀ c ∈ buffer, plainChar c) →
        ∀ (tokens : List (List Char)), (∀ t ∈ tokens, goodTok t) →
          ∀ t ∈ parsePromptAux s PromptQuote.Unquoted buffer tokens, goodTok t := by
  intro s
  induction s with
  | nil =>
    intro _ buffer hb tokens ht
    exact fun t hmem => pushTok_good buffer tokens hb ht t hmem
  | cons c cs ih =>
    intro h buffer hb tokens ht
    obtain ⟨hq1, hq2, hq3⟩ := h c (List.mem_cons_self c cs)
    have hrest : ∀ d ∈ cs, d ≠ squote ∧ d ≠ '"' ∧ d ≠ '\\' :=
      fun d hd => h d (List.mem_cons_of_mem c hd)
    by_cases hws : c = ' ' ∨ c = '\t' ∨ c = '\n'
    · rw [aux_ws cs buffer tokens hws]
      exact ih hrest [] (by simp) (pushTok buffer tokens)
        (pushTok_good buffer tokens hb ht)
    · by_cases hp : c = '|'
      · subst hp
        rw [aux_pipe cs buffer tokens]
        refine ih hrest [] (by simp) _ ?_
        intro t hmem
        rcases List.mem_append.1 hmem with h1 | h1
        · exact pushTok_good buffer tokens hb ht t h1
        · rcases List.mem_singleton.1 h1 with rfl
          exact ⟨by simp, Or.inl rfl⟩
      · rw [aux_plain cs buffer tokens hws hp hq1 hq2 hq3]
        refine ih hrest (buffer ++ [c]) ?_ tokens ht
        intro d hd
        rcases List.mem_append.1 hd with h1 | h1
        · exact hb d h1
        · rcases List.mem_singleton.1 h1 with rfl
          exact ⟨fun hc => hws (Or.inl hc), fun hc => hws (Or.inr (Or.inl hc)),
            fun hc => hws (Or.inr (Or.inr hc)), hp, hq1, hq2, hq3⟩

/-- Tokenizing a space-joined list of good tokens appends exactly those
tokens. -/
theorem retokenize_good :
    ∀ (L : List (List Char)), (∀ t ∈ L, goodTok t) →
      ∀ tokens, parsePromptAux (joinSpace L) PromptQuote.Unquoted [] tokens =
        tokens ++ L := by
  intro L
  induction L with
  | nil => intro _ tokens; simp [joinSpace, parsePromptAux, pushTok]
  | cons t L' ih =>
    intro h tokens
    obtain ⟨htne, hcase⟩ := h t (List.mem_cons_self t L')
    have hrest := fun u hu => h u (List.mem_cons_of_mem t hu)
    have htf : t.isEmpty = false := by
      cases t with
      | nil => exact absurd rfl htne
      | cons a m => rfl
    cases L' with
    | nil =>
      show parsePromptAux t PromptQuote.Unquoted [] tokens = tokens ++ [t]
      rcases hcase with rfl | hplain
      · rw [aux_pipe [] [] tokens]
        simp [parsePromptAux, pushTok]
      · have hrun := aux_plain_run t hplain [] [] tokens
        rw [List.append_nil] at hrun
        rw [hrun]
        simp [parsePromptAux, pushTok, htf]
    | cons u M =>
      show parsePromptAux (t ++ ' ' :: joinSpace (u :: M))
        PromptQuote.Unquoted [] tokens = _
      rcases hcase with rfl | hplain
      · rw [show (['|'] : List Char) ++ ' ' :: joinSpace (u :: M) =
          '|' :: ' ' :: joinSpace (u :: M) from rfl]
        rw [aux_pipe, aux_ws _ _ _ (Or.inl rfl)]
        rw [show pushTok [] (pushTok [] tokens ++ [['|']]) = tokens ++ [['|']] from by
          simp [pushTok]]
        rw [ih hrest (tokens ++ [['|']])]
        simp
      · rw [aux_plain_run t hplain (' ' :: joinSpace (u :: M)) [] tokens]
        rw [aux_ws _ _ _ (Or.inl rfl)]
        rw [show pushTok ([] ++ t) tokens = tokens ++ [t] from by
          simp [pushTok, htf]]
        rw [ih hrest (tokens ++ [t])]
        simp

/-- C3: for already-unquoted text (no quote characters, no backslash),
tokenizing, rejoining the tokens with single spaces, and tokenizing again
yields the same token sequence as the first tokenization. -/
theorem tokenize_rejoin_retokenize :
    ∀ s : List Char, (∀ c ∈ s, c ≠ squote ∧ c ≠ '"' ∧ c ≠ '\\') →
      parse_prompt (joinSpace (parse_prompt s)) = parse_prompt s := by
  intro s h
  have hgood : ∀ t ∈ parse_prompt s, goodTok t :=
    aux_goodTok s h [] (by simp) [] (by simp)
  have hjoin := retokenize_good (parse_prompt s) hgood []
  simpa [parse_prompt] using hjoin

/-- Witness for `tokenize_rejoin_retokenize` at the already-unquoted line
`ls  -l | wc`. -/
theorem tokenize_rejoin_retokenize_witness :
    (∀ c ∈ "ls  -l | wc".toList, c ≠ squote ∧ c ≠ '"' ∧ c ≠ '\\') ∧
    parse_prompt (joinSpace (parse_prompt "ls  -l | wc".toList)) =
      parse_prompt "ls  -l | wc".toList :=
  ⟨by decide, tokenize_rejoin_retokenize "ls  -l | wc".toList (by decide)⟩

/-- C10: every token returned by the tokenizer is a non-empty string; an
empty quoted string (`''` or `""`) surrounded by whitespace contributes no
token at all, so the tokenizer can never produce an empty argument. -/
theorem tokenizer_tokens_nonempty :
    (∀ s t, t ∈ parse_prompt s → t ≠ []) ∧
    parse_prompt ['a', ' ', squote, squote, ' ', 'b'] = [['a'], ['b']] ∧
    parse_prompt ['a', ' ', '"', '"', ' ', 'b'] = [['a'], ['b']] := by
  refine ⟨?_, by decide, by decide⟩
  intro s t ht
  exact parsePromptAux_ne_nil s PromptQuote.Unquoted [] [] (by simp) t ht

/-- Witness for `tokenizer_tokens_nonempty` at the concrete line `a` whose
sole token `"a"` is non-empty. -/
theorem tokenizer_tokens_nonempty_witness :
    ['a'] ∈ parse_prompt ['a'] ∧ (['a'] : List Char) ≠ [] :=
  ⟨by decide, tokenizer_tokens_nonempty.1 ['a'] ['a'] (by decide)⟩

/-- C6: a bare `|` in Unquoted mode flushes the pending token (if
non-empty) and emits its own boundary token `"|"`, while a `|` inside
single or double quotes is copied literally into the current token;
`tokenize("a|b") = ["a","|","b"]` and
`tokenize("echo 'a|b'") = ["echo","a|b"]`. -/
theorem pipe_boundary_spec :
    (∀ cs buffer tokens,
        parsePromptAux ('|' :: cs) PromptQuote.Unquoted buffer tokens =
          parsePromptAux cs PromptQuote.Unquoted []
            (pushTok buffer tokens ++ [['|']])) ∧
    (∀ cs buffer tokens,
        parsePromptAux ('|' :: cs) PromptQuote.SingleQuoted buffer tokens =
          parsePromptAux cs PromptQuote.SingleQuoted (buffer ++ ['|']) tokens) ∧
    (∀ cs buffer tokens,
        parsePromptAux ('|' :: cs) PromptQuote.DoubleQuoted buffer tokens =
          parsePromptAux cs PromptQuote.DoubleQuoted (buffer ++ ['|']) tokens) ∧
    parse_prompt "a|b".toList = [['a'], ['|'], ['b']] ∧
    parse_prompt ['e', 'c', 'h', 'o', ' ', squote, 'a', '|', 'b', squote] =
      ["echo".toList, "a|b".toList] := by
  refine ⟨?_, ?_, ?_, by decide, by decide⟩ <;>
    intro cs buffer tokens <;>
    · rw [parsePromptAux.eq_def]
      simp [squote]

/-- C7: with escape interpretation enabled by a literal leading `-e` flag,
`\n,\t,\r,\\,\a,\b,\f,\v,\e` map to their control characters, an
unrecognized `\x` passes both characters through, a trailing lone
backslash is kept literal, and without `-e` the text is emitted
unchanged. -/
theorem echo_escape_spec :
    (∀ ds, interpret_escape_sequences ('\\' :: 'n' :: ds) =
        '\n' :: interpret_escape_sequences ds) ∧
    (∀ ds, interpret_escape_sequences ('\\' :: 't' :: ds) =
        '\t' :: interpret_escape_sequences ds) ∧
    (∀ ds, interpret_escape_sequences ('\\' :: 'r' :: ds) =
        '\r' :: interpret_escape_sequences ds) ∧
    (∀ ds, interpret_escape_sequences ('\\' :: '\\' :: ds) =
        '\\' :: interpret_escape_sequences ds) ∧
    (∀ ds, interpret_escape_sequences ('\\' :: 'a' :: ds) =
        Char.ofNat 7 :: interpret_escape_sequences ds) ∧
    (∀ ds, interpret_escape_sequences ('\\' :: 'b' :: ds) =
        Char.ofNat 8 :: interpret_escape_sequences ds) ∧
    (∀ ds, interpret_escape_sequences ('\\' :: 'f' :: ds) =
        Char.ofNat 12 :: interpret_escape_sequences ds) ∧
    (∀ ds, interpret_escape_sequences ('\\' :: 'v' :: ds) =
        Char.ofNat 11 :: interpret_escape_sequences ds) ∧
    (∀ ds, interpret_escape_sequences ('\\' :: 'e' :: ds) =
        Char.ofNat 27 :: interpret_escape_sequences ds) ∧
    (∀ d ds, d ∉ (['n', 't', 'r', '\\', 'a', 'b', 'f', 'v', 'e'] : List Char) →
        interpret_escape_sequences ('\\' :: d :: ds) =
          '\\' :: d :: interpret_escape_sequences ds) ∧
    interpret_escape_sequences ['\\'] = ['\\'] ∧
    (∀ c cs, c ≠ '\\' →
        interpret_escape_sequences (c :: cs) = c :: interpret_escape_sequences cs) ∧
    (∀ t, echoRendered t false = t) ∧
    (∀ t, echoRendered t true = interpret_escape_sequences t) ∧
    (∀ rest filtered out err, extract_redirects rest = some (filtered, out, err) →
        parse_command ("echo".toList :: rest) =
          Except.ok
            (if filtered.head? = some "-e".toList then
               Command.Echo (joinSpace filtered.tail) true
             else Command.Echo (joinSpace filtered) false,
             (out, err))) ∧
    echoRendered ['a', '\\', 't', 'b'] true = ['a', '\t', 'b'] ∧
    echoRendered ['a', '\\', 't', 'b'] false = ['a', '\\', 't', 'b'] := by
  refine ⟨fun ds => rfl, fun ds => rfl, fun ds => rfl, fun ds => rfl, fun ds => rfl,
    fun ds => rfl, fun ds => rfl, fun ds => rfl, fun ds => rfl, ?_, rfl, ?_, fun t => rfl,
    fun t => rfl, ?_, by decide, by decide⟩
  · intro d ds hd
    simp only [List.mem_cons, List.not_mem_nil, or_false, not_or] at hd
    obtain ⟨hn, ht, hr, hbs, ha, hb, hf, hv, he⟩ := hd
    rw [interpret_escape_sequences.eq_def]
    simp [hn, ht, hr, hbs, ha, hb, hf, hv, he]
  · intro c cs hc
    rw [interpret_escape_sequences.eq_def]
    simp [hc]
  · intro rest filtered out err h
    simp only [parse_command]
    rw [h]
    unfold resolveCommand
    rw [show parseCommandKind "echo".toList = some CommandKind.Echo from rfl]

/-- Witness for `echo_escape_spec`: the `-e` wiring applied at the word
list `["-e", "a\tb"]` (no redirects). -/
theorem echo_escape_spec_witness :
    extract_redirects ["-e".toList, ['a', '\\', 't', 'b']] =
      some (["-e".toList, ['a', '\\', 't', 'b']], Sink.Std, Sink.Std) ∧
    parse_command ["echo".toList, "-e".toList, ['a', '\\', 't', 'b']] =
      Except.ok (Command.Echo ['a', '\\', 't', 'b'] true, (Sink.Std, Sink.Std)) := by
  refine ⟨by decide, ?_⟩
  have h := echo_escape_spec.2.2.2.2.2.2.2.2.2.2.2.2.2.2.1
    ["-e".toList, ['a', '\\', 't', 'b']] ["-e".toList, ['a', '\\', 't', 'b']]
    Sink.Std Sink.Std (by decide)
  simpa using h

/-- C8: `cd` with an empty argument or `~` targets the home directory,
`~/rest` resolves relative to the home directory for a relative `rest`
(via `PathBuf::join`, an absolute `rest` replaces the home directory
entirely), and a missing target yields the non-fatal error
`cd: <path>: No such file or directory` while the working directory
stays unchanged. -/
theorem cd_spec :
    ∀ (env : ShellEnv) (cwd : List Char),
      (∀ home, env.homeDir = some home → env.dirOk home = true →
          cdStep env cwd [] = (home, none) ∧ cdStep env cwd ['~'] = (home, none)) ∧
      (∀ home rest, env.homeDir = some home → rest.head? ≠ some '/' →
          cdTarget env ('~' :: '/' :: rest) = some (home ++ '/' :: rest)) ∧
      (∀ home rest, env.homeDir = some home → rest.head? = some '/' →
          cdTarget env ('~' :: '/' :: rest) = some rest) ∧
      (∀ path target, cdTarget env path = some target → env.dirOk target = false →
          cdStep env cwd path =
            (cwd, some ("cd: ".toList ++ path ++ ": No such file or directory".toList))) := by
  intro env cwd
  refine ⟨?_, ?_, ?_, ?_⟩
  · intro home hh hok
    constructor <;> simp [cdStep, cd, cdTarget, hh, hok]
  · intro home rest hh hr
    simp [cdTarget, pathJoin, hh, hr]
  · intro home rest hh hr
    simp [cdTarget, pathJoin, hh, hr]
  · intro path target ht hnot
    simp [cdStep, cd, ht, hnot]

/-- Witness for `cd_spec` at a concrete environment: home `/h`, only `/h`
and `/h/x` exist; `~/x` resolves under the home directory while the
absolute remainder of `~//x` replaces it; `cd` to the missing `/nope`
keeps the working directory. -/
theorem cd_spec_witness :
    cdStep
        { findInPath := fun _ => none, progOutput := fun _ _ _ => [],
          homeDir := some "/h".toList,
          dirOk := fun p => p = "/h".toList ∨ p = "/h/x".toList,
          cwd := "/h".toList, historyItems := [] }
        "/h".toList [] = ("/h".toList, none) ∧
    cdTarget
        { findInPath := fun _ => none, progOutput := fun _ _ _ => [],
          homeDir := some "/h".toList,
          dirOk := fun p => p = "/h".toList ∨ p = "/h/x".toList,
          cwd := "/h".toList, historyItems := [] }
        "~/x".toList = some "/h/x".toList ∧
    cdTarget
        { findInPath := fun _ => none, progOutput := fun _ _ _ => [],
          homeDir := some "/h".toList,
          dirOk := fun p => p = "/h".toList ∨ p = "/h/x".toList,
          cwd := "/h".toList, historyItems := [] }
        "~//x".toList = some "/x".toList ∧
    cdStep
        { findInPath := fun _ => none, progOutput := fun _ _ _ => [],
          homeDir := some "/h".toList,
          dirOk := fun p => p = "/h".toList ∨ p = "/h/x".toList,
          cwd := "/h".toList, historyItems := [] }
        "/h".toList "/nope".toList =
      ("/h".toList,
        some ("cd: ".toList ++ "/nope".toList ++ ": No such file or directory".toList)) := by
  refine ⟨?_, ?_, ?_, ?_⟩
  · exact ((cd_spec _ "/h".toList).1 "/h".toList rfl (by decide)).1
  · exact (cd_spec _ "/h".toList).2.1 "/h".toList "x".toList rfl (by decide)
  · exact (cd_spec _ "/h".toList).2.2.1 "/h".toList "/x".toList rfl (by decide)
  · exact (cd_spec _ "/h".toList).2.2.2 "/nope".toList "/nope".toList (by decide) (by decide)

/-- C2: an External Intent whose program is not on the search path fails
with `<name>: command not found` with no child spawned and no stdout; in a
pipeline, the error is reported and later stages never start (the trace is
independent of `rest` and holds no events of later stages). -/
theorem command_not_found_halts_pipeline :
    ∀ (env : ShellEnv) (prog : List Char) (args : List (List Char))
      (input : List (List Char)) (isFinal : Bool) (rest : List Command),
      env.findInPath prog = none →
      exec_piped env prog args input isFinal =
        (Except.error (prog ++ ": command not found".toList), []) ∧
      execute_command env (Command.Exec prog args) input isFinal =
        (Except.error (prog ++ ": command not found".toList), []) ∧
      handle_pipeline env (Command.Exec prog args :: rest) input =
        [Event.errLine (prog ++ ": command not found".toList)] := by
  intro env prog args input isFinal rest h
  refine ⟨?_, ?_, ?_⟩
  · simp [exec_piped, h]
  · simp [execute_command, exec_piped, h]
  · simp [handle_pipeline, execute_command, exec_piped, h]


/-- `parse_command` never reports EmptyPipeline: its errors are
`Empty command` and `redirect path missing`. -/
theorem parse_command_ne_emptyPipeline (s : List (List Char)) :
    parse_command s ≠ Except.error ParseErr.emptyPipeline := by
  cases s with
  | nil => simp [parse_command]
  | cons name rest => cases h : extract_redirects rest <;> simp [parse_command, h]

/-- The segment loop never reports EmptyPipeline either. -/
theorem parsePipelineGo_ne_emptyPipeline :
    ∀ (segs : List (List (List Char))) (cmds : List Command)
      (finalStreams : Option Streams),
      parsePipelineGo segs cmds finalStreams ≠ Except.error ParseErr.emptyPipeline := by
  intro segs
  induction segs with
  | nil => intro cmds fin; simp [parsePipelineGo]
  | cons seg rest ih =>
    intro cmds fin
    cases hp : parse_command seg with
    | error e =>
      simp only [parsePipelineGo, hp]
      intro hc
      rcases Except.error.inj hc with rfl
      exact parse_command_ne_emptyPipeline seg hp
    | ok r =>
      simp only [parsePipelineGo, hp]
      exact ih _ _

/-- `getLastD` of a non-empty list ignores the default. -/
theorem getLastD_irrel {α : Type} (l : List α) (x y : α) (h : l ≠ []) :
    l.getLastD x = l.getLastD y := by
  cases l with
  | nil => exact absurd rfl h
  | cons a m => rw [List.getLastD_cons, List.getLastD_cons]

/-- A non-empty segment list that parses in full parses to a non-empty
result list. -/
theorem mapParse_cons_ne_nil (seg : List (List Char))
    (rest : List (List (List Char))) (rs : List (Command × Streams))
    (h : mapParse (seg :: rest) = Except.ok rs) : rs ≠ [] := by
  cases hp : parse_command seg with
  | error e => simp [mapParse, hp] at h
  | ok r =>
    cases hm : mapParse rest with
    | error e => simp [mapParse, hp, hm] at h
    | ok rs' =>
      simp only [mapParse, hp, hm] at h
      rcases Except.ok.inj h with rfl
      simp

/-- The segment loop computes: commands in order, and the last segment's
streams. -/
theorem parsePipelineGo_mapParse :
    ∀ (segs : List (List (List Char))) (cmds : List Command)
      (finalStreams : Option Streams) (rs : List (Command × Streams)),
      mapParse segs = Except.ok rs →
      parsePipelineGo segs cmds finalStreams =
        Except.ok (cmds ++ rs.map Prod.fst,
          if rs.isEmpty then finalStreams.getD defaultStreams
          else (rs.map Prod.snd).getLastD defaultStreams) := by
  intro segs
  induction segs with
  | nil =>
    intro cmds fin rs h
    simp only [mapParse] at h
    rcases Except.ok.inj h with rfl
    simp [parsePipelineGo]
  | cons seg rest ih =>
    intro cmds fin rs h
    cases hp : parse_command seg with
    | error e => simp [mapParse, hp] at h
    | ok r =>
      cases hm : mapParse rest with
      | error e => simp [mapParse, hp, hm] at h
      | ok rs' =>
        simp only [mapParse, hp, hm] at h
        rcases Except.ok.inj h with rfl
        simp only [parsePipelineGo, hp]
        cases rest with
        | nil =>
          simp only [mapParse] at hm
          rcases Except.ok.inj hm with rfl
          simp [parsePipelineGo, List.getLastD_cons]
        | cons s ss =>
          have hne : rs' ≠ [] := mapParse_cons_ne_nil s ss rs' hm
          simp only [List.isEmpty_cons, Bool.false_eq_true, if_false]
          rw [ih (cmds ++ [r.1]) fin rs' hm]
          have h1 : rs'.isEmpty = false := by
            cases rs' with
            | nil => exact absurd rfl hne
            | cons a m => rfl
          have h2 : (rs'.map Prod.snd) ≠ [] := by
            cases rs' with
            | nil => exact absurd rfl hne
            | cons a m => simp
          simp only [List.isEmpty_cons, h1, Bool.false_eq_true, if_false, List.map_cons,
            List.getLastD_cons, List.append_assoc, List.singleton_append]
          rw [getLastD_irrel (rs'.map Prod.snd) r.2 defaultStreams h2]

/-- Step: a pipe token starts a fresh segment. -/
theorem splitOnPipe_pipe_cons (ts : List (List Char)) :
    splitOnPipe (['|'] :: ts) = [] :: splitOnPipe ts := by
  rw [splitOnPipe.eq_def]
  simp

/-- Step: a non-pipe token is prepended to the first segment. -/
theorem splitOnPipe_other_cons (t : List Char) (ts : List (List Char))
    (ht : t ≠ ['|']) (seg : List (List Char)) (segs : List (List (List Char)))
    (hs : splitOnPipe ts = seg :: segs) :
    splitOnPipe (t :: ts) = (t :: seg) :: segs := by
  rw [splitOnPipe.eq_def]
  simp only [if_neg ht, hs]

/-- `splitOnPipe` always yields at least one segment. -/
theorem splitOnPipe_cons_shape :
    ∀ ts : List (List Char), ∃ seg segs, splitOnPipe ts = seg :: segs := by
  intro ts
  induction ts with
  | nil => exact ⟨[], [], rfl⟩
  | cons t rest ih =>
    obtain ⟨seg, segs, hs⟩ := ih
    by_cases ht : t = ['|']
    · subst ht
      exact ⟨[], splitOnPipe rest, splitOnPipe_pipe_cons rest⟩
    · exact ⟨t :: seg, segs, splitOnPipe_other_cons t rest ht seg segs hs⟩

/-- A trailing pipe token appends one empty segment. -/
theorem splitOnPipe_append_pipe :
    ∀ ts : List (List Char), splitOnPipe (ts ++ [['|']]) = splitOnPipe ts ++ [[]] := by
  intro ts
  induction ts with
  | nil => rfl
  | cons t rest ih =>
    by_cases ht : t = ['|']
    · subst ht
      rw [List.cons_append, splitOnPipe_pipe_cons, ih, splitOnPipe_pipe_cons]
      simp
    · obtain ⟨seg, segs, hs⟩ := splitOnPipe_cons_shape rest
      rw [List.cons_append,
        splitOnPipe_other_cons t (rest ++ [['|']]) ht seg (segs ++ [[]])
          (by rw [ih, hs]; rfl),
        splitOnPipe_other_cons t rest ht seg segs hs]
      simp

/-- C5: the Pipeline Assembler splits on pipe-boundary tokens, drops empty
segments (stray, leading and trailing pipes are tolerated), fails with
EmptyPipeline iff zero non-empty segments remain, and otherwise yields one
Intent per non-empty segment in order, with the last segment's sink
pair. -/
theorem pipeline_assembly_spec :
    (∀ tokens, parse_pipeline tokens = Except.error ParseErr.emptyPipeline ↔
        (splitOnPipe tokens).filter (fun s => !s.isEmpty) = []) ∧
    (∀ tokens rs,
        mapParse ((splitOnPipe tokens).filter (fun s => !s.isEmpty)) = Except.ok rs →
        rs ≠ [] →
        parse_pipeline tokens =
          Except.ok (rs.map Prod.fst, (rs.map Prod.snd).getLastD defaultStreams)) ∧
    (∀ tokens, parse_pipeline (['|'] :: tokens) = parse_pipeline tokens) ∧
    (∀ tokens, parse_pipeline (tokens ++ [['|']]) = parse_pipeline tokens) := by
  refine ⟨?_, ?_, ?_, ?_⟩
  · intro tokens
    constructor
    · intro h
      by_contra hs
      have hne : ((splitOnPipe tokens).filter (fun s => !s.isEmpty)).isEmpty = false := by
        cases hc : (splitOnPipe tokens).filter (fun s => !s.isEmpty) with
        | nil => exact absurd hc hs
        | cons a m => rfl
      rw [parse_pipeline] at h
      simp only [hne, Bool.false_eq_true, if_false] at h
      exact parsePipelineGo_ne_emptyPipeline _ [] none h
    · intro hs
      rw [parse_pipeline]
      simp [hs]
  · intro tokens rs hm hne
    have hsegs : ((splitOnPipe tokens).filter (fun s => !s.isEmpty)).isEmpty = false := by
      cases hc : (splitOnPipe tokens).filter (fun s => !s.isEmpty) with
      | nil =>
        rw [hc] at hm
        simp only [mapParse] at hm
        rcases Except.ok.inj hm with rfl
        exact absurd rfl hne
      | cons a m => rfl
    have h1 : rs.isEmpty = false := by
      cases rs with
      | nil => exact absurd rfl hne
      | cons a m => rfl
    rw [parse_pipeline]
    simp only [hsegs, Bool.false_eq_true, if_false]
    rw [parsePipelineGo_mapParse _ [] none rs hm]
    simp [h1]
  · intro tokens
    have h : splitOnPipe (['|'] :: tokens) = [] :: splitOnPipe tokens := by
      rw [splitOnPipe.eq_def]
      simp
    rw [parse_pipeline, parse_pipeline, h]
    simp
  · intro tokens
    rw [parse_pipeline, parse_pipeline, splitOnPipe_append_pipe]
    simp

/-- Witness for `pipeline_assembly_spec`: the token list
`["ls", "|", "|", "wc", "|"]` has two non-empty segments; the assembler
yields two Intents and default sinks, tolerating the stray and trailing
pipes. -/
theorem pipeline_assembly_spec_witness :
    mapParse ((splitOnPipe
        ["ls".toList, ['|'], ['|'], "wc".toList, ['|']]).filter
          (fun s => !s.isEmpty)) =
      Except.ok [(Command.Exec "ls".toList [], defaultStreams),
        (Command.Exec "wc".toList [], defaultStreams)] ∧
    parse_pipeline ["ls".toList, ['|'], ['|'], "wc".toList, ['|']] =
      Except.ok ([Command.Exec "ls".toList [], Command.Exec "wc".toList []],
        defaultStreams) := by
  refine ⟨rfl, ?_⟩
  have h := pipeline_assembly_spec.2.1
    ["ls".toList, ['|'], ['|'], "wc".toList, ['|']]
    [(Command.Exec "ls".toList [], defaultStreams),
      (Command.Exec "wc".toList [], defaultStreams)] rfl (by simp)
  simpa using h


/-- Step: a stdout/stderr operator followed by a path consumes both and
replaces the corresponding sink. -/
theorem exAux_op_trunc1 {arg : List Char} (path : List Char)
    (rest filtered : List (List Char)) (out err : Sink)
    (hop : arg = ">".toList ∨ arg = "1>".toList) :
    extractRedirectsAux (arg :: path :: rest) filtered out err =
      extractRedirectsAux rest filtered (Sink.File path false) err := by
  rcases hop with rfl | rfl <;> rfl

/-- Step: `2>` followed by a path replaces the stderr sink (truncate). -/
theorem exAux_op_trunc2 (path : List Char) (rest filtered : List (List Char))
    (out err : Sink) :
    extractRedirectsAux ("2>".toList :: path :: rest) filtered out err =
      extractRedirectsAux rest filtered out (Sink.File path false) := rfl

/-- Step: `>>`/`1>>` followed by a path replaces the stdout sink
(append). -/
theorem exAux_op_app1 {arg : List Char} (path : List Char)
    (rest filtered : List (List Char)) (out err : Sink)
    (hop : arg = ">>".toList ∨ arg = "1>>".toList) :
    extractRedirectsAux (arg :: path :: rest) filtered out err =
      extractRedirectsAux rest filtered (Sink.File path true) err := by
  rcases hop with rfl | rfl <;> rfl

/-- Step: `2>>` followed by a path replaces the stderr sink (append). -/
theorem exAux_op_app2 (path : List Char) (rest filtered : List (List Char))
    (out err : Sink) :
    extractRedirectsAux ("2>>".toList :: path :: rest) filtered out err =
      extractRedirectsAux rest filtered out (Sink.File path true) := rfl

/-- Step: a non-operator word is appended to the filtered output. -/
theorem exAux_pass {arg : List Char} (rest filtered : List (List Char))
    (out err : Sink) (h : arg ∉ redirOps) :
    extractRedirectsAux (arg :: rest) filtered out err =
      extractRedirectsAux rest (filtered ++ [arg]) out err := by
  simp only [redirOps, List.mem_cons, List.not_mem_nil, or_false, not_or] at h
  obtain ⟨h1, h2, h3, h4, h5, h6⟩ := h
  rw [extractRedirectsAux.eq_def]
  simp only []
  rw [if_neg (by exact fun hc => hc.elim h1 h2), if_neg h5,
    if_neg (by exact fun hc => hc.elim h3 h4), if_neg h6]

/-- Step: an operator with nothing after it fails
(MissingRedirectTarget). -/
theorem exAux_op_nil {arg : List Char} (filtered : List (List Char))
    (out err : Sink) (h : arg ∈ redirOps) :
    extractRedirectsAux [arg] filtered out err = none := by
  simp only [redirOps, List.mem_cons, List.not_mem_nil, or_false] at h
  rcases h with rfl | rfl | rfl | rfl | rfl | rfl <;> rfl

/-- A failing scan ends on a redirect operator: the last word of the
argument list is one of the six operators. -/
theorem exAux_none_last :
    ∀ (args filtered : List (List Char)) (out err : Sink),
      extractRedirectsAux args filtered out err = none →
      ∃ op, args.getLast? = some op ∧ op ∈ redirOps := by
  intro args filtered out err
  induction args, filtered, out, err using extractRedirectsAux.induct with
  | case1 filtered out err =>
    intro h
    simp [extractRedirectsAux] at h
  | case2 arg filtered out err hop =>
    intro _
    rcases hop with rfl | rfl <;> exact ⟨_, rfl, by decide⟩
  | case3 arg filtered out err hop path rest2 ih =>
    intro h
    rw [exAux_op_trunc1 path rest2 filtered out err hop] at h
    obtain ⟨op, hlast, hmem⟩ := ih h
    cases rest2 with
    | nil => simp at hlast
    | cons c cs => exact ⟨op, by simpa [List.getLast?_cons_cons] using hlast, hmem⟩
  | case4 filtered out err _ =>
    intro _
    exact ⟨_, rfl, by decide⟩
  | case5 filtered out err path rest2 _ ih =>
    intro h
    rw [exAux_op_trunc2 path rest2 filtered out err] at h
    obtain ⟨op, hlast, hmem⟩ := ih h
    cases rest2 with
    | nil => simp at hlast
    | cons c cs => exact ⟨op, by simpa [List.getLast?_cons_cons] using hlast, hmem⟩
  | case6 arg filtered out err _ _ hop =>
    intro _
    rcases hop with rfl | rfl <;> exact ⟨_, rfl, by decide⟩
  | case7 arg filtered out err _ _ hop path rest2 ih =>
    intro h
    rw [exAux_op_app1 path rest2 filtered out err hop] at h
    obtain ⟨op, hlast, hmem⟩ := ih h
    cases rest2 with
    | nil => simp at hlast
    | cons c cs => exact ⟨op, by simpa [List.getLast?_cons_cons] using hlast, hmem⟩
  | case8 filtered out err _ _ _ =>
    intro _
    exact ⟨_, rfl, by decide⟩
  | case9 filtered out err path rest2 _ _ _ ih =>
    intro h
    rw [exAux_op_app2 path rest2 filtered out err] at h
    obtain ⟨op, hlast, hmem⟩ := ih h
    cases rest2 with
    | nil => simp at hlast
    | cons c cs => exact ⟨op, by simpa [List.getLast?_cons_cons] using hlast, hmem⟩
  | case10 arg rest filtered out err h1 h2 h3 h4 ih =>
    intro h
    have hpass : arg ∉ redirOps := by
      simp only [redirOps, List.mem_cons, List.not_mem_nil, or_false, not_or]
      exact ⟨fun hc => h1 (Or.inl hc), fun hc => h1 (Or.inr hc), fun hc => h3 (Or.inl hc),
        fun hc => h3 (Or.inr hc), h2, h4⟩
    rw [exAux_pass rest filtered out err hpass] at h
    obtain ⟨op, hlast, hmem⟩ := ih h
    cases rest with
    | nil => simp at hlast
    | cons c cs => exact ⟨op, by simpa [List.getLast?_cons_cons] using hlast, hmem⟩

/-- A successful scan composes with any continuation: appending further
words continues the scan from the reached state. -/
theorem exAux_append :
    ∀ (args filtered : List (List Char)) (out err : Sink)
      (extra f : List (List Char)) (o e : Sink),
      extractRedirectsAux args filtered out err = some (f, o, e) →
      extractRedirectsAux (args ++ extra) filtered out err =
        extractRedirectsAux extra f o e := by
  intro args filtered out err
  induction args, filtered, out, err using extractRedirectsAux.induct with
  | case1 filtered out err =>
    intro extra f o e h
    simp only [extractRedirectsAux] at h
    obtain ⟨rfl, rfl, rfl⟩ := by simpa using h
    simp
  | case2 arg filtered out err hop =>
    intro extra f o e h
    rw [exAux_op_nil filtered out err (by rcases hop with rfl | rfl <;> decide)] at h
    exact absurd h (by simp)
  | case3 arg filtered out err hop path rest2 ih =>
    intro extra f o e h
    rw [exAux_op_trunc1 path rest2 filtered out err hop] at h
    rw [List.cons_append, List.cons_append,
      exAux_op_trunc1 path (rest2 ++ extra) filtered out err hop]
    exact ih extra f o e h
  | case4 filtered out err _ =>
    intro extra f o e h
    rw [exAux_op_nil filtered out err (by decide)] at h
    exact absurd h (by simp)
  | case5 filtered out err path rest2 _ ih =>
    intro extra f o e h
    rw [exAux_op_trunc2 path rest2 filtered out err] at h
    rw [List.cons_append, List.cons_append,
      exAux_op_trunc2 path (rest2 ++ extra) filtered out err]
    exact ih extra f o e h
  | case6 arg filtered out err _ _ hop =>
    intro extra f o e h
    rw [exAux_op_nil filtered out err (by rcases hop with rfl | rfl <;> decide)] at h
    exact absurd h (by simp)
  | case7 arg filtered out err _ _ hop path rest2 ih =>
    intro extra f o e h
    rw [exAux_op_app1 path rest2 filtered out err hop] at h
    rw [List.cons_append, List.cons_append,
      exAux_op_app1 path (rest2 ++ extra) filtered out err hop]
    exact ih extra f o e h
  | case8 filtered out err _ _ _ =>
    intro extra f o e h
    rw [exAux_op_nil filtered out err (by decide)] at h
    exact absurd h (by simp)
  | case9 filtered out err path rest2 _ _ _ ih =>
    intro extra f o e h
    rw [exAux_op_app2 path rest2 filtered out err] at h
    rw [List.cons_append, List.cons_append,
      exAux_op_app2 path (rest2 ++ extra) filtered out err]
    exact ih extra f o e h
  | case10 arg rest filtered out err h1 h2 h3 h4 ih =>
    intro extra f o e h
    have hpass : arg ∉ redirOps := by
      simp only [redirOps, List.mem_cons, List.not_mem_nil, or_false, not_or]
      exact ⟨fun hc => h1 (Or.inl hc), fun hc => h1 (Or.inr hc), fun hc => h3 (Or.inl hc),
        fun hc => h3 (Or.inr hc), h2, h4⟩
    rw [exAux_pass rest filtered out err hpass] at h
    rw [List.cons_append, exAux_pass (rest ++ extra) filtered out err hpass]
    exact ih extra f o e h

/-- C4 counterexample: in `[">", "2>"]` the last word is a redirect
operator, yet extraction succeeds — `">"` consumed `"2>"` as its path — so
"fails iff some such operator is the last word" is false in the "if"
direction. -/
theorem extract_redirects_last_word_op_success :
    ([">".toList, "2>".toList].getLast? = some "2>".toList) ∧
    "2>".toList ∈ redirOps ∧
    extract_redirects [">".toList, "2>".toList] =
      some ([], Sink.File "2>".toList false, Sink.Std) := by
  refine ⟨rfl, by decide, rfl⟩

/-- C4 (amended): the Redirection Extractor scans left to right; each of
`>`, `1>`, `>>`, `1>>`, `2>`, `2>>` consumes the operator and the
following word as a path, excluding both from the filtered output; a
non-operator word passes through; it fails with MissingRedirectTarget
exactly when the scan reaches an operator with no following word — hence
failure implies the last word is an operator, though not conversely — and
later redirects of the same stream override earlier ones (last-wins). -/
theorem extract_redirects_scan_spec :
    (∀ op, op ∈ stdoutOps →
        ∀ path rest filtered out err,
          extractRedirectsAux (op :: path :: rest) filtered out err =
            extractRedirectsAux rest filtered (Sink.File path (opAppendFlag op)) err) ∧
    (∀ op, op ∈ stderrOps →
        ∀ path rest filtered out err,
          extractRedirectsAux (op :: path :: rest) filtered out err =
            extractRedirectsAux rest filtered out (Sink.File path (opAppendFlag op))) ∧
    (∀ w rest filtered out err, w ∉ redirOps →
        extractRedirectsAux (w :: rest) filtered out err =
          extractRedirectsAux rest (filtered ++ [w]) out err) ∧
    (∀ op filtered out err, op ∈ redirOps →
        extractRedirectsAux [op] filtered out err = none) ∧
    (∀ args, extract_redirects args = none →
        ∃ op, args.getLast? = some op ∧ op ∈ redirOps) ∧
    (∀ args extra f o e, extract_redirects args = some (f, o, e) →
        extract_redirects (args ++ extra) = extractRedirectsAux extra f o e) ∧
    (∀ args f o e path, extract_redirects args = some (f, o, e) →
        (∀ op, op ∈ stdoutOps →
            extract_redirects (args ++ [op, path]) =
              some (f, Sink.File path (opAppendFlag op), e)) ∧
        (∀ op, op ∈ stderrOps →
            extract_redirects (args ++ [op, path]) =
              some (f, o, Sink.File path (opAppendFlag op)))) := by
  have hso : ∀ op, op ∈ stdoutOps →
      ∀ path rest filtered out err,
        extractRedirectsAux (op :: path :: rest) filtered out err =
          extractRedirectsAux rest filtered (Sink.File path (opAppendFlag op)) err := by
    intro op hop path rest filtered out err
    simp only [stdoutOps, List.mem_cons, List.not_mem_nil, or_false] at hop
    rcases hop with rfl | rfl | rfl | rfl
    · exact exAux_op_trunc1 path rest filtered out err (Or.inl rfl)
    · exact exAux_op_trunc1 path rest filtered out err (Or.inr rfl)
    · exact exAux_op_app1 path rest filtered out err (Or.inl rfl)
    · exact exAux_op_app1 path rest filtered out err (Or.inr rfl)
  have hse : ∀ op, op ∈ stderrOps →
      ∀ path rest filtered out err,
        extractRedirectsAux (op :: path :: rest) filtered out err =
          extractRedirectsAux rest filtered out (Sink.File path (opAppendFlag op)) := by
    intro op hop path rest filtered out err
    simp only [stderrOps, List.mem_cons, List.not_mem_nil, or_false] at hop
    rcases hop with rfl | rfl
    · exact exAux_op_trunc2 path rest filtered out err
    · exact exAux_op_app2 path rest filtered out err
  refine ⟨hso, hse, ?_, ?_, ?_, ?_, ?_⟩
  · intro w rest filtered out err hw
    exact exAux_pass rest filtered out err hw
  · intro op filtered out err hop
    exact exAux_op_nil filtered out err hop
  · intro args h
    exact exAux_none_last args [] Sink.Std Sink.Std h
  · intro args extra f o e h
    exact exAux_append args [] Sink.Std Sink.Std extra f o e h
  · intro args f o e path h
    constructor
    · intro op hop
      show extractRedirectsAux (args ++ [op, path]) [] Sink.Std Sink.Std = _
      rw [exAux_append args [] Sink.Std Sink.Std [op, path] f o e h,
        hso op hop path [] f o e]
      rfl
    · intro op hop
      show extractRedirectsAux (args ++ [op, path]) [] Sink.Std Sink.Std = _
      rw [exAux_append args [] Sink.Std Sink.Std [op, path] f o e h,
        hse op hop path [] f o e]
      rfl

/-- Witness for `extract_redirects_scan_spec`: last-wins applied at a word
list that already redirects stdout, overridden by a final `1>>`. -/
theorem extract_redirects_scan_spec_witness :
    extract_redirects ["x".toList, ">".toList, "a".toList] =
      some (["x".toList], Sink.File "a".toList false, Sink.Std) ∧
    extract_redirects
        ["x".toList, ">".toList, "a".toList, "1>>".toList, "b".toList] =
      some (["x".toList], Sink.File "b".toList true, Sink.Std) := by
  refine ⟨by decide, ?_⟩
  have h := (extract_redirects_scan_spec.2.2.2.2.2.2
    ["x".toList, ">".toList, "a".toList] ["x".toList]
    (Sink.File "a".toList false) Sink.Std "b".toList (by decide)).1
    "1>>".toList (by decide)
  simpa using h


/-- C1: the Command Resolver matches the first word case-sensitively and
exactly against the fixed built-in set {exit, echo, type, pwd, cd,
history}; a first word in that set resolves to the corresponding built-in
Intent (in particular `history`), and any other first word resolves to an
External Intent whose program is that word and whose argv is the remaining
(redirect-filtered) words. -/
theorem command_resolver_cases :
    (∀ name, is_built_in name = true ↔ name ∈ builtinNames) ∧
    ∀ name rest filtered out err,
      extract_redirects rest = some (filtered, out, err) →
      (name = "exit".toList →
          parse_command (name :: rest) = Except.ok (Command.Exit, (out, err))) ∧
      (name = "echo".toList →
          ∃ t b, parse_command (name :: rest) = Except.ok (Command.Echo t b, (out, err))) ∧
      (name = "type".toList →
          parse_command (name :: rest) =
            Except.ok (Command.Type (joinSpace filtered), (out, err))) ∧
      (name = "pwd".toList →
          parse_command (name :: rest) = Except.ok (Command.Pwd, (out, err))) ∧
      (name = "cd".toList →
          parse_command (name :: rest) =
            Except.ok (Command.Cd (joinSpace filtered), (out, err))) ∧
      (name = "history".toList →
          parse_command (name :: rest) = Except.ok (Command.History, (out, err))) ∧
      (name ∉ builtinNames →
          parse_command (name :: rest) =
            Except.ok (Command.Exec name filtered, (out, err))) := by
  constructor
  · intro name
    constructor
    · intro h
      unfold is_built_in parseCommandKind at h
      split_ifs at h with h1 h2 h3 h4 h5 h6
      · exact h1 ▸ List.mem_cons_self _ _
      · simp [builtinNames, h2]
      · simp [builtinNames, h3]
      · simp [builtinNames, h4]
      · simp [builtinNames, h5]
      · simp [builtinNames, h6]
      · simp at h
    · intro h
      simp only [builtinNames, List.mem_cons, List.not_mem_nil, or_false] at h
      rcases h with rfl | rfl | rfl | rfl | rfl | rfl <;> decide
  · intro name rest filtered out err hx
    have base :
        ∀ name, parse_command (name :: rest) =
          Except.ok (resolveCommand name filtered, (out, err)) := by
      intro name
      simp only [parse_command]
      rw [hx]
    refine ⟨?_, ?_, ?_, ?_, ?_, ?_, ?_⟩
    · rintro rfl; rw [base]; rfl
    · rintro rfl
      by_cases he : filtered.head? = some "-e".toList
      · refine ⟨joinSpace filtered.tail, true, ?_⟩
        rw [base]
        unfold resolveCommand
        rw [show parseCommandKind "echo".toList = some CommandKind.Echo from rfl,
          if_pos he]
      · refine ⟨joinSpace filtered, false, ?_⟩
        rw [base]
        unfold resolveCommand
        rw [show parseCommandKind "echo".toList = some CommandKind.Echo from rfl,
          if_neg he]
    · rintro rfl; rw [base]; rfl
    · rintro rfl; rw [base]; rfl
    · rintro rfl; rw [base]; rfl
    · rintro rfl; rw [base]; rfl
    · intro hnot
      simp only [builtinNames, List.mem_cons, List.not_mem_nil, or_false, not_or] at hnot
      obtain ⟨h1, h2, h3, h4, h5, h6⟩ := hnot
      have hk : parseCommandKind name = none := by
        unfold parseCommandKind
        rw [if_neg h1, if_neg h2, if_neg h3, if_neg h4, if_neg h5, if_neg h6]
      rw [base]
      unfold resolveCommand
      rw [hk]

/-- Witness for `command_resolver_cases`: `history` resolves to the
built-in History Intent; the capitalized `History` is not in the set and
resolves to an External Intent. -/
theorem command_resolver_cases_witness :
    parse_command ["history".toList] = Except.ok (Command.History, (Sink.Std, Sink.Std)) ∧
    parse_command ["History".toList] =
      Except.ok (Command.Exec "History".toList [], (Sink.Std, Sink.Std)) :=
  ⟨(command_resolver_cases.2 "history".toList [] [] Sink.Std Sink.Std rfl).2.2.2.2.2.1 rfl,
   (command_resolver_cases.2 "History".toList [] [] Sink.Std Sink.Std rfl).2.2.2.2.2.2
     (by decide)⟩

/-- Witness for `command_not_found_halts_pipeline`: an environment with an
empty search path, the unresolvable program `nope` piped into a second
stage that therefore never spawns. -/
theorem command_not_found_halts_pipeline_witness :
    handle_pipeline
        { findInPath := fun _ => none, progOutput := fun _ _ _ => [["x".toList.head!]],
          homeDir := none, dirOk := fun _ => false, cwd := [], historyItems := [] }
        [Command.Exec "nope".toList [], Command.Exec "wc".toList []] [] =
      [Event.errLine ("nope".toList ++ ": command not found".toList)] :=
  (command_not_found_halts_pipeline _ "nope".toList [] [] false
    [Command.Exec "wc".toList []] rfl).2.2

end Shell
